import Mathlib

/-!
Verification development for the vocal-processing pipeline orchestrator
(backend/services/orchestrator.py), the progress publishing layer and the
WebSocket connection manager (backend/api/websocket.py), over the job data
model of backend/models/project.py.

The stateful Python code is embedded as pure Lean functions: in-place
mutation of the Project row becomes explicit state passing, `db.commit()`
and `publish_progress(...)` calls become entries of an explicit event
trace, and the external collaborators (Demucs, analyzer, DiffSinger, ...)
are abstracted by an environment giving the outcome (normal return or
raised exception) of each stage handler's external work, together with the
analysis result values the ANALYSIS handler writes back to the job row.
-/

/-- PipelineStep enum of backend/models/project.py. -/
inductive PipelineStep where
  | upload
  | separation
  | analysis
  | melody
  | synthesis
  | refinement
  | mix
deriving DecidableEq, Repr

/-- String value of each PipelineStep (the enum value in project.py). -/
def stepValue : PipelineStep → String
  | PipelineStep.upload => "upload"
  | PipelineStep.separation => "separation"
  | PipelineStep.analysis => "analysis"
  | PipelineStep.melody => "melody"
  | PipelineStep.synthesis => "synthesis"
  | PipelineStep.refinement => "refinement"
  | PipelineStep.mix => "mix"

/-- ProjectStatus enum of backend/models/project.py. -/
inductive ProjectStatus where
  | created
  | uploading
  | analyzing
  | melody_ready
  | synthesizing
  | refining
  | mixing
  | completed
  | error
deriving DecidableEq, Repr

/-- The persisted Project row (backend/models/project.py).  Floating point
columns are modelled as rationals; the server-managed created_at and
updated_at timestamp columns are omitted (no orchestrator code reads or
writes them). -/
structure Project where
  id : String
  name : String
  description : Option String
  status : ProjectStatus
  current_step : Option PipelineStep
  instrumental_filename : Option String
  audio_format : Option String
  duration_seconds : Option ℚ
  sample_rate : Option ℤ
  bpm : Option ℚ
  musical_key : Option String
  lyrics : Option String
  language : Option String
  has_vocals : Bool
  synthesis_engine : Option String
  voice_model : Option String
  progress : ℤ
  error_message : Option String
deriving DecidableEq, Repr

/-- Result record returned by AudioAnalyzer.analyze, as consumed by
PipelineOrchestrator._run_analysis (orchestrator.py lines 231-238). -/
structure AnalysisResult where
  duration_seconds : ℚ
  sample_rate : ℤ
  bpm : ℚ
  musical_key : String
deriving DecidableEq, Repr

/-- Environment abstracting the external collaborators: for each stage,
whether its external work returns normally or raises (with the exception
text), and the analysis values written back to the job by _run_analysis. -/
structure Env where
  outcome : PipelineStep → Except String Unit
  analysisResult : AnalysisResult

/-- Progress event payload as produced by publish_progress calls from the
orchestrator (websocket.py publish_progress signature). -/
structure PubEvent where
  project_id : String
  step : String
  progress : ℤ
  message : String
  status : String
  eta_seconds : Option ℤ
  elapsed_seconds : ℤ
deriving DecidableEq, Repr

/-- Observable effects of an orchestrator run: a db.commit() snapshot of
the job row, the invocation of a stage handler, a publish_progress call,
and a structlog log line. -/
inductive Event where
  | persist (p : Project)
  | invoke (s : PipelineStep)
  | publish (e : PubEvent)
  | log (tag : String) (detail : String)
deriving DecidableEq, Repr

/-- Python `x or default` on an optional string: None and the empty string
are falsy, any other string is returned as is.  Used for
`project.synthesis_engine or "diffsinger"` (orchestrator.py line 78). -/
def pyOr (s : Option String) (d : String) : String :=
  match s with
  | none => d
  | some v => if v = "" then d else v

/-- Stage order PIPELINE_ORDER (orchestrator.py lines 16-24). -/
def PIPELINE_ORDER : List PipelineStep :=
  [PipelineStep.upload, PipelineStep.separation, PipelineStep.analysis,
   PipelineStep.melody, PipelineStep.synthesis, PipelineStep.refinement,
   PipelineStep.mix]

/-- Handler _run_separation (orchestrator.py lines 173-211): on success of
the Demucs separation the file renames happen and the project's
audio_format is set to "wav"; on a raised exception no job field has been
mutated yet. -/
def run_separation (env : Env) (p : Project) : Project × Option String :=
  match env.outcome PipelineStep.separation with
  | Except.error e => (p, some e)
  | Except.ok _ => ({ p with audio_format := some "wav" }, none)

/-- Handler _run_analysis (orchestrator.py lines 213-241): on success the
analysis metadata is written to the job and status becomes MELODY_READY;
analyzer.analyze raises before any job field is mutated. -/
def run_analysis (env : Env) (p : Project) : Project × Option String :=
  match env.outcome PipelineStep.analysis with
  | Except.error e => (p, some e)
  | Except.ok _ =>
    ({ p with
        duration_seconds := some env.analysisResult.duration_seconds,
        sample_rate := some env.analysisResult.sample_rate,
        bpm := some env.analysisResult.bpm,
        musical_key := some env.analysisResult.musical_key,
        status := ProjectStatus.melody_ready }, none)

/-- Handler _run_melody (orchestrator.py lines 243-287): reads job fields
and writes melody artifacts to storage, mutating no job field. -/
def run_melody (env : Env) (p : Project) : Project × Option String :=
  match env.outcome PipelineStep.melody with
  | Except.error e => (p, some e)
  | Except.ok _ => (p, none)

/-- Handler _run_synthesis (orchestrator.py lines 289-457): sets
status = SYNTHESIZING first (line 295), then performs the engine work,
which may raise after that in-place status mutation. -/
def run_synthesis (env : Env) (p : Project) : Project × Option String :=
  let p1 := { p with status := ProjectStatus.synthesizing }
  match env.outcome PipelineStep.synthesis with
  | Except.error e => (p1, some e)
  | Except.ok _ => (p1, none)

/-- Handler _run_refinement (orchestrator.py lines 459-484): sets
status = REFINING first (line 466); the missing-input bypass and the
successful conversion both return normally. -/
def run_refinement (env : Env) (p : Project) : Project × Option String :=
  let p1 := { p with status := ProjectStatus.refining }
  match env.outcome PipelineStep.refinement with
  | Except.error e => (p1, some e)
  | Except.ok _ => (p1, none)

/-- Handler _run_mix (orchestrator.py lines 486-524): sets status = MIXING
first (line 492); the bypasses and the successful mix return normally. -/
def run_mix (env : Env) (p : Project) : Project × Option String :=
  let p1 := { p with status := ProjectStatus.mixing }
  match env.outcome PipelineStep.mix with
  | Except.error e => (p1, some e)
  | Except.ok _ => (p1, none)

/-- The step_handlers dispatch table built in run_step (orchestrator.py
lines 153-160).  UPLOAD has no entry. -/
def stepHandlers : PipelineStep → Option (Env → Project → Project × Option String)
  | PipelineStep.separation => some run_separation
  | PipelineStep.analysis => some run_analysis
  | PipelineStep.melody => some run_melody
  | PipelineStep.synthesis => some run_synthesis
  | PipelineStep.refinement => some run_refinement
  | PipelineStep.mix => some run_mix
  | PipelineStep.upload => none

/-- PipelineOrchestrator.run_step (orchestrator.py lines 139-171).
Returns the job row after the call, the exception text if the handler
raised (the exception propagates to the caller before the final
progress = 100 commit), and the event trace of the call. -/
def run_step (env : Env) (p : Project) (s : PipelineStep) :
    Project × Option String × List Event :=
  match stepHandlers s with
  | none =>
    ({ p with current_step := some s, progress := 100 }, none,
      [Event.log "step_iniciado" (stepValue s),
       Event.persist { p with current_step := some s, progress := 0 },
       Event.persist { p with current_step := some s, progress := 100 },
       Event.log "step_concluido" (stepValue s)])
  | some h =>
    match h env { p with current_step := some s, progress := 0 } with
    | (p2, some e) =>
      (p2, some e,
        [Event.log "step_iniciado" (stepValue s),
         Event.persist { p with current_step := some s, progress := 0 },
         Event.invoke s])
    | (p2, none) =>
      ({ p2 with progress := 100 }, none,
        [Event.log "step_iniciado" (stepValue s),
         Event.persist { p with current_step := some s, progress := 0 },
         Event.invoke s, Event.persist { p2 with progress := 100 },
         Event.log "step_concluido" (stepValue s)])

/-- The per-stage loop body of run_full_pipeline (orchestrator.py lines
82-128): UPLOAD is skipped silently, SEPARATION is skipped (with a log)
when the job has no vocals, MELODY is skipped (with a log) for the ACE-Step
engine; otherwise a start event is published, run_step is invoked, and on
success a completion event is published; on a raised exception the job is
marked ERROR, committed, an error event is published and the run stops. -/
def pipelineLoop (env : Env) (hv : Bool) (eng : String) (pid : String) :
    List PipelineStep → Project → Project × Bool × List Event
  | [], p => (p, false, [])
  | s :: rest, p =>
    if s = PipelineStep.upload then
      pipelineLoop env hv eng pid rest p
    else if s = PipelineStep.separation ∧ hv = false then
      let r := pipelineLoop env hv eng pid rest p
      (r.1, r.2.1, Event.log "step_pulado_sem_vocal" (stepValue s) :: r.2.2)
    else if eng = "acestep" ∧ s = PipelineStep.melody then
      let r := pipelineLoop env hv eng pid rest p
      (r.1, r.2.1, Event.log "step_pulado_acestep" (stepValue s) :: r.2.2)
    else
      let startEv : PubEvent :=
        ⟨pid, stepValue s, 0, "Iniciando " ++ stepValue s ++ "...",
         "processing", none, 0⟩
      match run_step env p s with
      | (p1, some e, evs1) =>
        let pe := { p1 with
          status := ProjectStatus.error,
          error_message := some ("Erro no step " ++ stepValue s ++ ": " ++ e) }
        let errEv : PubEvent :=
          ⟨pid, "error", 0, "Erro no step " ++ stepValue s ++ ": " ++ e,
           "error", none, 0⟩
        (pe, true,
          Event.publish startEv :: evs1 ++
            [Event.persist pe, Event.publish errEv,
             Event.log "pipeline_erro" (stepValue s)])
      | (p1, none, evs1) =>
        let doneEv : PubEvent :=
          ⟨pid, stepValue s, 100, stepValue s ++ " concluido",
           "completed", none, 0⟩
        let r := pipelineLoop env hv eng pid rest p1
        (r.1, r.2.1,
          Event.publish startEv :: evs1 ++ Event.publish doneEv :: r.2.2)

/-- PipelineOrchestrator.run_full_pipeline (orchestrator.py lines 67-137).
The db.get load is abstracted as the Option Project argument; a missing
job only logs.  After the loop completes without error the job is marked
COMPLETED with progress 100, committed, and a final completed event is
published. -/
def run_full_pipeline (env : Env) (proj : Option Project) :
    Option Project × List Event :=
  match proj with
  | none => (none, [Event.log "projeto_nao_encontrado" ""])
  | some p =>
    let eng := pyOr p.synthesis_engine "diffsinger"
    let hv := p.has_vocals
    let r := pipelineLoop env hv eng p.id PIPELINE_ORDER p
    if r.2.1 then
      (some r.1, Event.log "pipeline_completo_iniciado" p.id :: r.2.2)
    else
      let pf := { r.1 with status := ProjectStatus.completed, progress := 100 }
      (some pf,
        Event.log "pipeline_completo_iniciado" p.id :: r.2.2 ++
          [Event.persist pf,
           Event.publish ⟨p.id, "completed", 100, "Pipeline concluido!",
                          "completed", none, 0⟩,
           Event.log "pipeline_completo_concluido" p.id])

/-- Skip predicate of the run_full_pipeline loop: UPLOAD always, SEPARATION
when the job has no vocals, MELODY for the ACE-Step engine (orchestrator.py
lines 83, 87, 96). -/
def skipped (hv : Bool) (eng : String) (s : PipelineStep) : Prop :=
  s = PipelineStep.upload ∨ (s = PipelineStep.separation ∧ hv = false) ∨
    (eng = "acestep" ∧ s = PipelineStep.melody)

instance skippedDec (hv : Bool) (eng : String) (s : PipelineStep) :
    Decidable (skipped hv eng s) := by
  unfold skipped
  infer_instance

/-- The stage left in current_step after running a stage list: the last
non-skipped stage, or the accumulator if every stage is skipped. -/
def lastStep (hv : Bool) (eng : String) :
    List PipelineStep → Option PipelineStep → Option PipelineStep
  | [], c => c
  | s :: rest, c =>
    lastStep hv eng rest (if skipped hv eng s then c else some s)

/-- Python round (banker's rounding, round half to even) on a rational:
ties go to the even integer, everything else to the nearest integer. -/
def pyRound (q : ℚ) : ℤ :=
  if q - Rat.floor q = 1 / 2 then
    (if Rat.floor q % 2 = 0 then Rat.floor q else Rat.floor q + 1)
  else Rat.floor (q + 1 / 2)

/-- The report_progress closure built by _make_progress_fn
(orchestrator.py lines 33-65), bound to a job id, a stage name and a start
time: computes elapsed, attaches an eta only when 0 < percent < 100 and
elapsed > 0, publishes a processing event, and updates the in-memory job
progress without committing (the trace holds no persist event). -/
def report_progress (pid stepName : String) (start_time now : ℚ)
    (p : Project) (percent : ℤ) (message : String) : Project × List Event :=
  ({ p with progress := percent },
   [Event.publish
      ⟨pid, stepName, percent, message, "processing",
       if 0 < percent ∧ percent < 100 ∧ 0 < now - start_time then
         some (pyRound ((now - start_time) / (percent : ℚ) *
           (100 - (percent : ℚ))))
       else none,
       pyRound (now - start_time)⟩])

/-- Wire payload json.dumps-ed by publish_progress (websocket.py lines
38-48); the json encoding is abstracted to the record of its fields. -/
structure WireMessage where
  type_ : String
  project_id : String
  step : String
  progress : ℤ
  message : String
  status : String
  elapsed_seconds : ℤ
  eta_seconds : Option ℤ
  timestamp : ℚ
deriving DecidableEq, Repr

/-- Effects of a publish_progress call: a Redis publish on a channel, or a
warning log line when the transport failed. -/
inductive WsEffect where
  | published (channel : String) (payload : WireMessage)
  | logWarning (tag : String) (err : String)
deriving DecidableEq, Repr

/-- Behaviour of the Redis transport used by publish_progress: whether
Redis.from_url (lazy client creation, websocket.py lines 20-25) and
r.publish raise or return. -/
structure RedisTransport where
  fromUrl : Except String Unit
  publishRes : Except String Unit

/-- The body of the try block of publish_progress (websocket.py lines
49-51): create the client, publish the payload on channel
pipeline:progress:project_id; either step may raise. -/
def publish_progress_body (t : RedisTransport) (pid step : String)
    (progress : ℤ) (message status : String) (eta_seconds : Option ℤ)
    (elapsed_seconds : ℤ) (now : ℚ) : Except String WsEffect :=
  match t.fromUrl with
  | Except.error e => Except.error e
  | Except.ok _ =>
    match t.publishRes with
    | Except.error e => Except.error e
    | Except.ok _ =>
      Except.ok (WsEffect.published ("pipeline:progress:" ++ pid)
        ⟨"progress", pid, step, progress, message, status,
         elapsed_seconds, eta_seconds, now⟩)

/-- publish_progress (websocket.py lines 28-53): the body runs under
try/except Exception; a failure is logged as redis_publish_erro and
swallowed, so the function always returns a plain effect list. -/
def publish_progress (t : RedisTransport) (pid step : String)
    (progress : ℤ) (message status : String) (eta_seconds : Option ℤ)
    (elapsed_seconds : ℤ) (now : ℚ) : List WsEffect :=
  match publish_progress_body t pid step progress message status
      eta_seconds elapsed_seconds now with
  | Except.ok eff => [eff]
  | Except.error e => [WsEffect.logWarning "redis_publish_erro" e]

/-- ConnectionManager.connections: dict project_id -> list of WebSocket
connections, modelled as an association list; connections are identified
by a numeric id. -/
abbrev Registry := List (String × List ℕ)

/-- Lookup of a project's connection list (dict access with default []). -/
def regGet : Registry → String → List ℕ
  | [], _ => []
  | (k, v) :: rest, pid => if k = pid then v else regGet rest pid

/-- Membership test (Python `project_id in self.connections`). -/
def regHas : Registry → String → Bool
  | [], _ => false
  | (k, _) :: rest, pid => if k = pid then true else regHas rest pid

/-- Dict assignment to an existing key. -/
def regSet : Registry → String → List ℕ → Registry
  | [], _, _ => []
  | (k, v) :: rest, pid, nv =>
    if k = pid then (k, nv) :: rest else (k, v) :: regSet rest pid nv

/-- Dict key deletion. -/
def regDel : Registry → String → Registry
  | [], _ => []
  | (k, v) :: rest, pid =>
    if k = pid then regDel rest pid else (k, v) :: regDel rest pid

/-- ConnectionManager.disconnect (websocket.py lines 69-77): filter the
connection out of the project's list and drop the key when the list
becomes empty. -/
def disconnect (m : Registry) (ws : ℕ) (pid : String) : Registry :=
  if regHas m pid then
    (if (regGet m pid).filter (fun w => w ≠ ws) = [] then regDel m pid
     else regSet m pid ((regGet m pid).filter (fun w => w ≠ ws)))
  else m

/-- ConnectionManager.send_to_project (websocket.py lines 79-88): try to
send the payload to every connection registered for the project, in order;
collect the connections whose send raised and disconnect each of them
afterwards.  sendOk gives each connection's send behaviour; the returned
list holds the deliveries that succeeded. -/
def send_to_project (sendOk : ℕ → Bool) (m : Registry) (pid : String)
    (data : String) : Registry × List (ℕ × String) :=
  (((regGet m pid).filter (fun w => !sendOk w)).foldl
      (fun acc w => disconnect acc w pid) m,
   ((regGet m pid).filter sendOk).map (fun w => (w, data)))

/-- Job fields never written by any part of a pipeline run (neither the
orchestrator control flow nor any handler). -/
def frameC5 (r p : Project) : Prop :=
  r.id = p.id ∧ r.name = p.name ∧ r.description = p.description ∧
  r.instrumental_filename = p.instrumental_filename ∧ r.lyrics = p.lyrics ∧
  r.language = p.language ∧ r.has_vocals = p.has_vocals ∧
  r.synthesis_engine = p.synthesis_engine ∧ r.voice_model = p.voice_model

/-- Job fields a stage handler never writes: the frameC5 fields plus the
three fields owned by the orchestrator control flow other than status. -/
def frameH (r p : Project) : Prop :=
  frameC5 r p ∧ r.current_step = p.current_step ∧ r.progress = p.progress ∧
  r.error_message = p.error_message

lemma frameC5_refl (p : Project) : frameC5 p p := by
  simp [frameC5]

lemma frameC5_trans {a b c : Project} (h1 : frameC5 a b) (h2 : frameC5 b c) :
    frameC5 a c := by
  obtain ⟨e1, e2, e3, e4, e5, e6, e7, e8, e9⟩ := h1
  obtain ⟨f1, f2, f3, f4, f5, f6, f7, f8, f9⟩ := h2
  exact ⟨e1.trans f1, e2.trans f2, e3.trans f3, e4.trans f4, e5.trans f5,
    e6.trans f6, e7.trans f7, e8.trans f8, e9.trans f9⟩

/-- Every registered stage handler leaves the frameH fields of the job
unchanged, whichever way its external work ends. -/
lemma handler_frame (s : PipelineStep)
    (h : Env → Project → Project × Option String)
    (hh : stepHandlers s = some h) (env : Env) (p : Project) :
    frameH (h env p).1 p := by
  cases s
  case upload => exact absurd hh (by simp [stepHandlers])
  case separation =>
    simp only [stepHandlers, Option.some.injEq] at hh
    subst hh
    unfold run_separation
    cases ho : env.outcome PipelineStep.separation <;>
      simp [ho, frameH, frameC5]
  case analysis =>
    simp only [stepHandlers, Option.some.injEq] at hh
    subst hh
    unfold run_analysis
    cases ho : env.outcome PipelineStep.analysis <;>
      simp [ho, frameH, frameC5]
  case melody =>
    simp only [stepHandlers, Option.some.injEq] at hh
    subst hh
    unfold run_melody
    cases ho : env.outcome PipelineStep.melody <;>
      simp [ho, frameH, frameC5]
  case synthesis =>
    simp only [stepHandlers, Option.some.injEq] at hh
    subst hh
    unfold run_synthesis
    cases ho : env.outcome PipelineStep.synthesis <;>
      simp [ho, frameH, frameC5]
  case refinement =>
    simp only [stepHandlers, Option.some.injEq] at hh
    subst hh
    unfold run_refinement
    cases ho : env.outcome PipelineStep.refinement <;>
      simp [ho, frameH, frameC5]
  case mix =>
    simp only [stepHandlers, Option.some.injEq] at hh
    subst hh
    unfold run_mix
    cases ho : env.outcome PipelineStep.mix <;>
      simp [ho, frameH, frameC5]

/-- Unfolding equation of run_step for a stage with no handler entry. -/
lemma run_step_none (env : Env) (p : Project) (s : PipelineStep)
    (hh : stepHandlers s = none) :
    run_step env p s =
      ({ p with current_step := some s, progress := 100 }, none,
        [Event.log "step_iniciado" (stepValue s),
         Event.persist { p with current_step := some s, progress := 0 },
         Event.persist { p with current_step := some s, progress := 100 },
         Event.log "step_concluido" (stepValue s)]) := by
  unfold run_step
  simp only [hh]

/-- Unfolding equation of run_step when the handler raises. -/
lemma run_step_hdl_err (env : Env) (p : Project) (s : PipelineStep)
    (hd : Env → Project → Project × Option String) (p2 : Project) (e : String)
    (hh : stepHandlers s = some hd)
    (hr : hd env { p with current_step := some s, progress := 0 } =
      (p2, some e)) :
    run_step env p s =
      (p2, some e,
        [Event.log "step_iniciado" (stepValue s),
         Event.persist { p with current_step := some s, progress := 0 },
         Event.invoke s]) := by
  unfold run_step
  simp only [hh, hr]

/-- Unfolding equation of run_step when the handler returns normally. -/
lemma run_step_hdl_ok (env : Env) (p : Project) (s : PipelineStep)
    (hd : Env → Project → Project × Option String) (p2 : Project)
    (hh : stepHandlers s = some hd)
    (hr : hd env { p with current_step := some s, progress := 0 } =
      (p2, none)) :
    run_step env p s =
      ({ p2 with progress := 100 }, none,
        [Event.log "step_iniciado" (stepValue s),
         Event.persist { p with current_step := some s, progress := 0 },
         Event.invoke s, Event.persist { p2 with progress := 100 },
         Event.log "step_concluido" (stepValue s)]) := by
  unfold run_step
  simp only [hh, hr]

/-- run_step leaves the frameC5 fields of the job unchanged. -/
lemma run_step_frame (env : Env) (p : Project) (s : PipelineStep) :
    frameC5 (run_step env p s).1 p := by
  cases hhh : stepHandlers s with
  | none =>
    rw [run_step_none env p s hhh]
    simp [frameC5]
  | some hd =>
    have hf := handler_frame s hd hhh env
      { p with current_step := some s, progress := 0 }
    cases hr : hd env { p with current_step := some s, progress := 0 } with
    | mk p2 oe =>
      rw [hr] at hf
      cases oe with
      | none =>
        rw [run_step_hdl_ok env p s hd p2 hhh hr]
        exact frameC5_trans (frameC5_trans (by simp [frameC5]) hf.1)
          (by simp [frameC5])
      | some e =>
        rw [run_step_hdl_err env p s hd p2 e hhh hr]
        exact frameC5_trans hf.1 (by simp [frameC5])

/-- The only handler invocation a run_step trace can hold is the one for
its own stage. -/
lemma run_step_invoke_eq {env : Env} {p : Project} {s s' : PipelineStep}
    (h : Event.invoke s' ∈ (run_step env p s).2.2) : s' = s := by
  cases hhh : stepHandlers s with
  | none =>
    rw [run_step_none env p s hhh] at h
    simp at h
  | some hd =>
    cases hr : hd env { p with current_step := some s, progress := 0 } with
    | mk p2 oe =>
      cases oe with
      | none =>
        rw [run_step_hdl_ok env p s hd p2 hhh hr] at h
        simp at h
        exact h
      | some e =>
        rw [run_step_hdl_err env p s hd p2 e hhh hr] at h
        simp at h
        exact h

/-- Every stage other than UPLOAD has a dispatch-table entry, and when its
external work raises the handler propagates exactly that exception, having
mutated at most the non-frameH job fields. -/
lemma stepHandlers_err (s : PipelineStep) (hs : s ≠ PipelineStep.upload)
    (env : Env) (p : Project) (e : String)
    (ho : env.outcome s = Except.error e) :
    ∃ hd p2, stepHandlers s = some hd ∧ hd env p = (p2, some e) ∧
      frameH p2 p := by
  cases s
  case upload => exact absurd rfl hs
  case separation =>
    exact ⟨run_separation, p, rfl, by simp [run_separation, ho],
      by simp [frameH, frameC5]⟩
  case analysis =>
    exact ⟨run_analysis, p, rfl, by simp [run_analysis, ho],
      by simp [frameH, frameC5]⟩
  case melody =>
    exact ⟨run_melody, p, rfl, by simp [run_melody, ho],
      by simp [frameH, frameC5]⟩
  case synthesis =>
    exact ⟨run_synthesis, { p with status := ProjectStatus.synthesizing },
      rfl, by simp [run_synthesis, ho], by simp [frameH, frameC5]⟩
  case refinement =>
    exact ⟨run_refinement, { p with status := ProjectStatus.refining },
      rfl, by simp [run_refinement, ho], by simp [frameH, frameC5]⟩
  case mix =>
    exact ⟨run_mix, { p with status := ProjectStatus.mixing },
      rfl, by simp [run_mix, ho], by simp [frameH, frameC5]⟩

/-- Every stage other than UPLOAD has a dispatch-table entry, and when its
external work returns normally the handler returns normally, having
mutated at most the non-frameH job fields. -/
lemma stepHandlers_ok (s : PipelineStep) (hs : s ≠ PipelineStep.upload)
    (env : Env) (p : Project)
    (ho : env.outcome s = Except.ok ()) :
    ∃ hd p2, stepHandlers s = some hd ∧ hd env p = (p2, none) ∧
      frameH p2 p := by
  cases s
  case upload => exact absurd rfl hs
  case separation =>
    exact ⟨run_separation, { p with audio_format := some "wav" }, rfl,
      by simp [run_separation, ho], by simp [frameH, frameC5]⟩
  case analysis =>
    exact ⟨run_analysis,
      { p with
          duration_seconds := some env.analysisResult.duration_seconds,
          sample_rate := some env.analysisResult.sample_rate,
          bpm := some env.analysisResult.bpm,
          musical_key := some env.analysisResult.musical_key,
          status := ProjectStatus.melody_ready }, rfl,
      by simp [run_analysis, ho], by simp [frameH, frameC5]⟩
  case melody =>
    exact ⟨run_melody, p, rfl, by simp [run_melody, ho],
      by simp [frameH, frameC5]⟩
  case synthesis =>
    exact ⟨run_synthesis, { p with status := ProjectStatus.synthesizing },
      rfl, by simp [run_synthesis, ho], by simp [frameH, frameC5]⟩
  case refinement =>
    exact ⟨run_refinement, { p with status := ProjectStatus.refining },
      rfl, by simp [run_refinement, ho], by simp [frameH, frameC5]⟩
  case mix =>
    exact ⟨run_mix, { p with status := ProjectStatus.mixing },
      rfl, by simp [run_mix, ho], by simp [frameH, frameC5]⟩

/-- Behaviour of run_step on a non-UPLOAD stage whose external work
returns normally: commit of the stage start, one handler invocation, and a
commit with progress 100, leaving current_step at the stage. -/
lemma run_step_ok_spec (env : Env) (p : Project) (s : PipelineStep)
    (hs : s ≠ PipelineStep.upload) (ho : env.outcome s = Except.ok ()) :
    ∃ p3, run_step env p s =
      (p3, none,
        [Event.log "step_iniciado" (stepValue s),
         Event.persist { p with current_step := some s, progress := 0 },
         Event.invoke s, Event.persist p3,
         Event.log "step_concluido" (stepValue s)]) ∧
      frameC5 p3 p ∧ p3.current_step = some s ∧ p3.progress = 100 ∧
      p3.error_message = p.error_message := by
  obtain ⟨hd, p2, hh, hr, hf⟩ := stepHandlers_ok s hs env
    { p with current_step := some s, progress := 0 } ho
  refine ⟨{ p2 with progress := 100 },
    run_step_hdl_ok env p s hd p2 hh hr, ?_, ?_, rfl, ?_⟩
  · exact frameC5_trans (frameC5_trans (by simp [frameC5]) hf.1)
      (by simp [frameC5])
  · simpa using hf.2.1
  · simpa using hf.2.2.2

/-- Behaviour of run_step on a non-UPLOAD stage whose external work
raises: commit of the stage start, one handler invocation, and the
exception propagates with no further commit. -/
lemma run_step_err_spec (env : Env) (p : Project) (s : PipelineStep)
    (hs : s ≠ PipelineStep.upload) (e : String)
    (ho : env.outcome s = Except.error e) :
    ∃ p2, run_step env p s =
      (p2, some e,
        [Event.log "step_iniciado" (stepValue s),
         Event.persist { p with current_step := some s, progress := 0 },
         Event.invoke s]) ∧
      frameC5 p2 p ∧ p2.current_step = some s := by
  obtain ⟨hd, p2, hh, hr, hf⟩ := stepHandlers_err s hs env
    { p with current_step := some s, progress := 0 } e ho
  exact ⟨p2, run_step_hdl_err env p s hd p2 e hh hr,
    frameC5_trans hf.1 (by simp [frameC5]), by simpa using hf.2.1⟩

section LoopLemmas

variable (env : Env) (hv : Bool) (eng : String) (pid : String)

/-- Unfolding equation: UPLOAD is skipped silently. -/
lemma pipelineLoop_upload {rest : List PipelineStep} {p : Project} :
    pipelineLoop env hv eng pid (PipelineStep.upload :: rest) p =
      pipelineLoop env hv eng pid rest p := by
  simp [pipelineLoop]

/-- Unfolding equation: SEPARATION is skipped with a log for a job without
vocals. -/
lemma pipelineLoop_sepskip {rest : List PipelineStep} {p : Project}
    (hhv : hv = false) :
    pipelineLoop env hv eng pid (PipelineStep.separation :: rest) p =
      ((pipelineLoop env hv eng pid rest p).1,
       (pipelineLoop env hv eng pid rest p).2.1,
       Event.log "step_pulado_sem_vocal" "separation" ::
         (pipelineLoop env hv eng pid rest p).2.2) := by
  subst hhv
  simp [pipelineLoop, stepValue]

/-- Unfolding equation: MELODY is skipped with a log for the ACE-Step
engine. -/
lemma pipelineLoop_melskip {rest : List PipelineStep} {p : Project}
    (heng : eng = "acestep") :
    pipelineLoop env hv eng pid (PipelineStep.melody :: rest) p =
      ((pipelineLoop env hv eng pid rest p).1,
       (pipelineLoop env hv eng pid rest p).2.1,
       Event.log "step_pulado_acestep" "melody" ::
         (pipelineLoop env hv eng pid rest p).2.2) := by
  subst heng
  simp [pipelineLoop, stepValue]

/-- Unfolding equation: a non-skipped stage whose run_step raises marks
the job ERROR, commits, publishes the error event and stops the loop. -/
lemma pipelineLoop_run_err {s : PipelineStep} {rest : List PipelineStep}
    {p p1 : Project} {e : String} {evs1 : List Event}
    (h1 : s ≠ PipelineStep.upload)
    (h2 : ¬(s = PipelineStep.separation ∧ hv = false))
    (h3 : ¬(eng = "acestep" ∧ s = PipelineStep.melody))
    (hrs : run_step env p s = (p1, some e, evs1)) :
    pipelineLoop env hv eng pid (s :: rest) p =
      ({ p1 with
          status := ProjectStatus.error,
          error_message :=
            some ("Erro no step " ++ stepValue s ++ ": " ++ e) }, true,
        Event.publish ⟨pid, stepValue s, 0,
            "Iniciando " ++ stepValue s ++ "...", "processing", none, 0⟩ ::
          evs1 ++
          [Event.persist { p1 with
              status := ProjectStatus.error,
              error_message :=
                some ("Erro no step " ++ stepValue s ++ ": " ++ e) },
           Event.publish ⟨pid, "error", 0,
              "Erro no step " ++ stepValue s ++ ": " ++ e, "error", none, 0⟩,
           Event.log "pipeline_erro" (stepValue s)]) := by
  simp [pipelineLoop, h1, h2, h3, hrs]

/-- Unfolding equation: a non-skipped stage whose run_step returns
publishes the start and completion events and continues the loop. -/
lemma pipelineLoop_run_ok {s : PipelineStep} {rest : List PipelineStep}
    {p p1 : Project} {evs1 : List Event}
    (h1 : s ≠ PipelineStep.upload)
    (h2 : ¬(s = PipelineStep.separation ∧ hv = false))
    (h3 : ¬(eng = "acestep" ∧ s = PipelineStep.melody))
    (hrs : run_step env p s = (p1, none, evs1)) :
    pipelineLoop env hv eng pid (s :: rest) p =
      ((pipelineLoop env hv eng pid rest p1).1,
       (pipelineLoop env hv eng pid rest p1).2.1,
       Event.publish ⟨pid, stepValue s, 0,
           "Iniciando " ++ stepValue s ++ "...", "processing", none, 0⟩ ::
         evs1 ++
         Event.publish ⟨pid, stepValue s, 100, stepValue s ++ " concluido",
             "completed", none, 0⟩ ::
           (pipelineLoop env hv eng pid rest p1).2.2) := by
  simp [pipelineLoop, h1, h2, h3, hrs]

end LoopLemmas

/-- A stage whose skip predicate holds is never invoked by the loop,
whatever the stage outcomes are. -/
lemma loop_skip_not_invoked (env : Env) (hv : Bool) (eng : String)
    (pid : String) (s : PipelineStep) (hsk : skipped hv eng s) :
    ∀ (l : List PipelineStep) (p : Project),
      Event.invoke s ∉ (pipelineLoop env hv eng pid l p).2.2 := by
  intro l
  induction l with
  | nil => intro p h; simp [pipelineLoop] at h
  | cons s0 rest ih =>
    intro p h
    by_cases h1 : s0 = PipelineStep.upload
    · subst h1
      rw [pipelineLoop_upload] at h
      exact ih p h
    by_cases h2 : s0 = PipelineStep.separation ∧ hv = false
    · obtain ⟨rfl, hhv⟩ := h2
      rw [pipelineLoop_sepskip env hv eng pid hhv] at h
      rcases List.mem_cons.mp h with h' | h'
      · simp at h'
      · exact ih p h'
    by_cases h3 : eng = "acestep" ∧ s0 = PipelineStep.melody
    · obtain ⟨heng, rfl⟩ := h3
      rw [pipelineLoop_melskip env hv eng pid heng] at h
      rcases List.mem_cons.mp h with h' | h'
      · simp at h'
      · exact ih p h'
    · cases hrs : run_step env p s0 with
      | mk p1 y =>
        cases y with
        | mk oe evs1 =>
          cases oe with
          | some e =>
            rw [pipelineLoop_run_err env hv eng pid h1 h2 h3 hrs] at h
            simp at h
            have hs0 : s = s0 := run_step_invoke_eq (by rw [hrs]; exact h)
            exact absurd hsk (by rw [hs0]; simp [skipped, h1, h2, h3])
          | none =>
            rw [pipelineLoop_run_ok env hv eng pid h1 h2 h3 hrs] at h
            simp at h
            rcases h with h' | h'
            · have hs0 : s = s0 := run_step_invoke_eq (by rw [hrs]; exact h')
              exact absurd hsk (by rw [hs0]; simp [skipped, h1, h2, h3])
            · exact ih p1 h'

/-- A stage absent from the list is never invoked by the loop. -/
lemma loop_absent_not_invoked (env : Env) (hv : Bool) (eng : String)
    (pid : String) (s : PipelineStep) :
    ∀ (l : List PipelineStep) (p : Project), s ∉ l →
      Event.invoke s ∉ (pipelineLoop env hv eng pid l p).2.2 := by
  intro l
  induction l with
  | nil => intro p _ h; simp [pipelineLoop] at h
  | cons s0 rest ih =>
    intro p hno h
    have hne : s ≠ s0 := fun hc => hno (hc ▸ List.mem_cons_self s0 rest)
    have hnr : s ∉ rest := fun hc => hno (List.mem_cons_of_mem _ hc)
    by_cases h1 : s0 = PipelineStep.upload
    · subst h1
      rw [pipelineLoop_upload] at h
      exact ih p hnr h
    by_cases h2 : s0 = PipelineStep.separation ∧ hv = false
    · obtain ⟨rfl, hhv⟩ := h2
      rw [pipelineLoop_sepskip env hv eng pid hhv] at h
      rcases List.mem_cons.mp h with h' | h'
      · simp at h'
      · exact ih p hnr h'
    by_cases h3 : eng = "acestep" ∧ s0 = PipelineStep.melody
    · obtain ⟨heng, rfl⟩ := h3
      rw [pipelineLoop_melskip env hv eng pid heng] at h
      rcases List.mem_cons.mp h with h' | h'
      · simp at h'
      · exact ih p hnr h'
    · cases hrs : run_step env p s0 with
      | mk p1 y =>
        cases y with
        | mk oe evs1 =>
          cases oe with
          | some e =>
            rw [pipelineLoop_run_err env hv eng pid h1 h2 h3 hrs] at h
            simp at h
            exact hne (run_step_invoke_eq (by rw [hrs]; exact h))
          | none =>
            rw [pipelineLoop_run_ok env hv eng pid h1 h2 h3 hrs] at h
            simp at h
            rcases h with h' | h'
            · exact hne (run_step_invoke_eq (by rw [hrs]; exact h'))
            · exact ih p1 hnr h'

/-- The loop leaves the frameC5 fields of the job unchanged, whatever the
stage outcomes are. -/
lemma loop_frame (env : Env) (hv : Bool) (eng : String) (pid : String) :
    ∀ (l : List PipelineStep) (p : Project),
      frameC5 (pipelineLoop env hv eng pid l p).1 p := by
  intro l
  induction l with
  | nil => intro p; exact frameC5_refl p
  | cons s0 rest ih =>
    intro p
    by_cases h1 : s0 = PipelineStep.upload
    · subst h1
      rw [pipelineLoop_upload]
      exact ih p
    by_cases h2 : s0 = PipelineStep.separation ∧ hv = false
    · obtain ⟨rfl, hhv⟩ := h2
      rw [pipelineLoop_sepskip env hv eng pid hhv]
      exact ih p
    by_cases h3 : eng = "acestep" ∧ s0 = PipelineStep.melody
    · obtain ⟨heng, rfl⟩ := h3
      rw [pipelineLoop_melskip env hv eng pid heng]
      exact ih p
    · cases hrs : run_step env p s0 with
      | mk p1 y =>
        cases y with
        | mk oe evs1 =>
          have hfr : frameC5 p1 p := by
            have h := run_step_frame env p s0
            rw [hrs] at h
            exact h
          cases oe with
          | some e =>
            rw [pipelineLoop_run_err env hv eng pid h1 h2 h3 hrs]
            exact frameC5_trans (by simp [frameC5]) hfr
          | none =>
            rw [pipelineLoop_run_ok env hv eng pid h1 h2 h3 hrs]
            exact frameC5_trans (ih p1) hfr

/-- When every non-skipped stage of the list succeeds, the loop finishes
without the error flag and leaves current_step at the last non-skipped
stage. -/
lemma loop_ok (env : Env) (hv : Bool) (eng : String) (pid : String) :
    ∀ (l : List PipelineStep) (p : Project),
      (∀ s ∈ l, ¬ skipped hv eng s → env.outcome s = Except.ok ()) →
      (pipelineLoop env hv eng pid l p).2.1 = false ∧
      (pipelineLoop env hv eng pid l p).1.current_step =
        lastStep hv eng l p.current_step := by
  intro l
  induction l with
  | nil => intro p _; exact ⟨rfl, rfl⟩
  | cons s0 rest ih =>
    intro p hok
    have hoktl : ∀ s ∈ rest, ¬ skipped hv eng s → env.outcome s = Except.ok () :=
      fun s hs hns => hok s (List.mem_cons_of_mem _ hs) hns
    by_cases h1 : s0 = PipelineStep.upload
    · subst h1
      rw [pipelineLoop_upload]
      have hls : lastStep hv eng (PipelineStep.upload :: rest) p.current_step =
          lastStep hv eng rest p.current_step := by
        simp [lastStep, skipped]
      rw [hls]
      exact ih p hoktl
    by_cases h2 : s0 = PipelineStep.separation ∧ hv = false
    · obtain ⟨rfl, hhv⟩ := h2
      rw [pipelineLoop_sepskip env hv eng pid hhv]
      have hls : lastStep hv eng (PipelineStep.separation :: rest) p.current_step =
          lastStep hv eng rest p.current_step := by
        simp [lastStep, skipped, hhv]
      refine ⟨(ih p hoktl).1, ?_⟩
      rw [hls]
      exact (ih p hoktl).2
    by_cases h3 : eng = "acestep" ∧ s0 = PipelineStep.melody
    · obtain ⟨heng, rfl⟩ := h3
      rw [pipelineLoop_melskip env hv eng pid heng]
      have hls : lastStep hv eng (PipelineStep.melody :: rest) p.current_step =
          lastStep hv eng rest p.current_step := by
        simp [lastStep, skipped, heng]
      refine ⟨(ih p hoktl).1, ?_⟩
      rw [hls]
      exact (ih p hoktl).2
    · have hnsk : ¬ skipped hv eng s0 := by simp [skipped, h1, h2, h3]
      have ho := hok s0 (List.mem_cons_self s0 rest) hnsk
      obtain ⟨p3, hrs, hfr, hcs, hpr, hem⟩ := run_step_ok_spec env p s0 h1 ho
      rw [pipelineLoop_run_ok env hv eng pid h1 h2 h3 hrs]
      refine ⟨(ih p3 hoktl).1, ?_⟩
      have hls : lastStep hv eng (s0 :: rest) p.current_step =
          lastStep hv eng rest (some s0) := by
        simp [lastStep, hnsk]
      rw [hls, ← hcs]
      exact (ih p3 hoktl).2

/-- When every stage before S is skipped or succeeds and S's handler
raises, the loop ends with the error flag set, the job marked ERROR with
the stage name embedded in the error message, that state committed, the
error event published, and no stage after S invoked. -/
lemma loop_err (env : Env) (hv : Bool) (eng : String) (pid : String)
    (S : PipelineStep) (msg : String)
    (hS : ¬ skipped hv eng S) (hE : env.outcome S = Except.error msg) :
    ∀ (l1 l2 : List PipelineStep) (p : Project),
      (∀ s ∈ l1, skipped hv eng s ∨ env.outcome s = Except.ok ()) →
      (∀ s ∈ l2, s ∉ l1 ∧ s ≠ S) →
      ∃ pe evs,
        pipelineLoop env hv eng pid (l1 ++ S :: l2) p = (pe, true, evs) ∧
        pe.status = ProjectStatus.error ∧
        pe.error_message =
          some ("Erro no step " ++ stepValue S ++ ": " ++ msg) ∧
        Event.persist pe ∈ evs ∧
        Event.publish ⟨pid, "error", 0,
          "Erro no step " ++ stepValue S ++ ": " ++ msg, "error", none, 0⟩ ∈
            evs ∧
        ∀ s ∈ l2, Event.invoke s ∉ evs := by
  have hS1 : S ≠ PipelineStep.upload := fun h => hS (Or.inl h)
  have hS2 : ¬(S = PipelineStep.separation ∧ hv = false) :=
    fun h => hS (Or.inr (Or.inl h))
  have hS3 : ¬(eng = "acestep" ∧ S = PipelineStep.melody) :=
    fun h => hS (Or.inr (Or.inr h))
  intro l1
  induction l1 with
  | nil =>
    intro l2 p _ hdisj
    rw [List.nil_append]
    obtain ⟨p2, hrs, hfr, hcs⟩ := run_step_err_spec env p S hS1 msg hE
    rw [pipelineLoop_run_err env hv eng pid hS1 hS2 hS3 hrs]
    refine ⟨_, _, rfl, rfl, rfl, by simp, by simp, ?_⟩
    intro s hs hmem
    simp at hmem
    exact (hdisj s hs).2 hmem
  | cons s0 t ih =>
    intro l2 p hbef hdisj
    have hbeftl : ∀ s ∈ t, skipped hv eng s ∨ env.outcome s = Except.ok () :=
      fun s hs => hbef s (List.mem_cons_of_mem _ hs)
    have hdisjtl : ∀ s ∈ l2, s ∉ t ∧ s ≠ S := fun s hs =>
      ⟨fun hc => (hdisj s hs).1 (List.mem_cons_of_mem _ hc), (hdisj s hs).2⟩
    rw [List.cons_append]
    by_cases h1 : s0 = PipelineStep.upload
    · subst h1
      rw [pipelineLoop_upload]
      exact ih l2 p hbeftl hdisjtl
    by_cases h2 : s0 = PipelineStep.separation ∧ hv = false
    · obtain ⟨rfl, hhv⟩ := h2
      rw [pipelineLoop_sepskip env hv eng pid hhv]
      obtain ⟨pe, evs, heq, hst, hem, hpers, hpub, hinv⟩ :=
        ih l2 p hbeftl hdisjtl
      rw [heq]
      refine ⟨pe, _, rfl, hst, hem, by simp [hpers], by simp [hpub], ?_⟩
      intro s hs hmem
      rcases List.mem_cons.mp hmem with h' | h'
      · simp at h'
      · exact hinv s hs h'
    by_cases h3 : eng = "acestep" ∧ s0 = PipelineStep.melody
    · obtain ⟨heng, rfl⟩ := h3
      rw [pipelineLoop_melskip env hv eng pid heng]
      obtain ⟨pe, evs, heq, hst, hem, hpers, hpub, hinv⟩ :=
        ih l2 p hbeftl hdisjtl
      rw [heq]
      refine ⟨pe, _, rfl, hst, hem, by simp [hpers], by simp [hpub], ?_⟩
      intro s hs hmem
      rcases List.mem_cons.mp hmem with h' | h'
      · simp at h'
      · exact hinv s hs h'
    · have hnsk : ¬ skipped hv eng s0 := by simp [skipped, h1, h2, h3]
      have ho := (hbef s0 (List.mem_cons_self s0 t)).resolve_left hnsk
      obtain ⟨p3, hrs, hfr, hcs, hpr, hemq⟩ := run_step_ok_spec env p s0 h1 ho
      rw [pipelineLoop_run_ok env hv eng pid h1 h2 h3 hrs]
      obtain ⟨pe, evs, heq, hst, hem, hpers, hpub, hinv⟩ :=
        ih l2 p3 hbeftl hdisjtl
      rw [heq]
      refine ⟨pe, _, rfl, hst, hem, ?_, ?_, ?_⟩
      · simp [hpers]
      · simp [hpub]
      · intro s hs hmem
        simp at hmem
        rcases hmem with h' | h'
        · exact (hdisj s hs).1 (by rw [h']; exact List.mem_cons_self s0 t)
        · exact hinv s hs h'

/-- Boolean test for the invocation event of a given stage. -/
def isInvokeOf (s : PipelineStep) : Event → Bool
  | Event.invoke s2 => decide (s2 = s)
  | _ => false

lemma countP_zero_of_not_invoke (s : PipelineStep) (evs : List Event)
    (h : Event.invoke s ∉ evs) : evs.countP (isInvokeOf s) = 0 := by
  rw [List.countP_eq_zero]
  intro a ha hpa
  cases a with
  | invoke s2 =>
    have hsq : s2 = s := by simpa [isInvokeOf] using hpa
    exact h (hsq ▸ ha)
  | persist q => simp [isInvokeOf] at hpa
  | publish e => simp [isInvokeOf] at hpa
  | log t d => simp [isInvokeOf] at hpa

/-- When every stage before S is skipped or succeeds and S is neither
skipped nor listed again later, the loop trace holds exactly one
invocation of S, whatever S's own outcome and the later outcomes are. -/
lemma loop_count_one (env : Env) (hv : Bool) (eng : String) (pid : String)
    (S : PipelineStep) (hS : ¬ skipped hv eng S) :
    ∀ (l1 l2 : List PipelineStep) (p : Project),
      (∀ s ∈ l1, skipped hv eng s ∨ env.outcome s = Except.ok ()) →
      S ∉ l1 → S ∉ l2 →
      ((pipelineLoop env hv eng pid (l1 ++ S :: l2) p).2.2.countP
        (isInvokeOf S)) = 1 := by
  have hS1 : S ≠ PipelineStep.upload := fun h => hS (Or.inl h)
  have hS2 : ¬(S = PipelineStep.separation ∧ hv = false) :=
    fun h => hS (Or.inr (Or.inl h))
  have hS3 : ¬(eng = "acestep" ∧ S = PipelineStep.melody) :=
    fun h => hS (Or.inr (Or.inr h))
  intro l1
  induction l1 with
  | nil =>
    intro l2 p _ _ hno2
    rw [List.nil_append]
    cases hout : env.outcome S with
    | ok u =>
      cases u
      obtain ⟨p3, hrs, hfr, hcs, hpr, hem⟩ := run_step_ok_spec env p S hS1 hout
      rw [pipelineLoop_run_ok env hv eng pid hS1 hS2 hS3 hrs]
      have hz : ((pipelineLoop env hv eng pid l2 p3).2.2.countP
          (isInvokeOf S)) = 0 :=
        countP_zero_of_not_invoke S _
          (loop_absent_not_invoked env hv eng pid S l2 p3 hno2)
      simp [List.countP_cons, List.countP_append, isInvokeOf, hz]
    | error e =>
      obtain ⟨p2, hrs, hfr, hcs⟩ := run_step_err_spec env p S hS1 e hout
      rw [pipelineLoop_run_err env hv eng pid hS1 hS2 hS3 hrs]
      simp [List.countP_cons, List.countP_append, isInvokeOf]
  | cons s0 t ih =>
    intro l2 p hbef hno1 hno2
    have hneq : s0 ≠ S :=
      fun hc => hno1 (by rw [← hc]; exact List.mem_cons_self s0 t)
    have hnt : S ∉ t := fun hc => hno1 (List.mem_cons_of_mem _ hc)
    have hbeftl : ∀ s ∈ t, skipped hv eng s ∨ env.outcome s = Except.ok () :=
      fun s hs => hbef s (List.mem_cons_of_mem _ hs)
    rw [List.cons_append]
    by_cases h1 : s0 = PipelineStep.upload
    · subst h1
      rw [pipelineLoop_upload]
      exact ih l2 p hbeftl hnt hno2
    by_cases h2 : s0 = PipelineStep.separation ∧ hv = false
    · obtain ⟨rfl, hhv⟩ := h2
      rw [pipelineLoop_sepskip env hv eng pid hhv]
      simp [List.countP_cons, isInvokeOf, ih l2 p hbeftl hnt hno2]
    by_cases h3 : eng = "acestep" ∧ s0 = PipelineStep.melody
    · obtain ⟨heng, rfl⟩ := h3
      rw [pipelineLoop_melskip env hv eng pid heng]
      simp [List.countP_cons, isInvokeOf, ih l2 p hbeftl hnt hno2]
    · have hnsk : ¬ skipped hv eng s0 := by simp [skipped, h1, h2, h3]
      have ho := (hbef s0 (List.mem_cons_self s0 t)).resolve_left hnsk
      obtain ⟨p3, hrs, hfr, hcs, hpr, hem⟩ := run_step_ok_spec env p s0 h1 ho
      rw [pipelineLoop_run_ok env hv eng pid h1 h2 h3 hrs]
      simp [List.countP_cons, List.countP_append, isInvokeOf, hneq,
        ih l2 p3 hbeftl hnt hno2]

/-- run_full_pipeline on a found job whose loop errored. -/
lemma run_full_eq_err (env : Env) (p pe : Project) (evs : List Event)
    (h : pipelineLoop env p.has_vocals (pyOr p.synthesis_engine "diffsinger")
        p.id PIPELINE_ORDER p = (pe, true, evs)) :
    run_full_pipeline env (some p) =
      (some pe, Event.log "pipeline_completo_iniciado" p.id :: evs) := by
  simp [run_full_pipeline, h]

/-- run_full_pipeline on a found job whose loop completed: the job is
marked COMPLETED with progress 100, committed, and the final completed
event published. -/
lemma run_full_eq_ok (env : Env) (p pr : Project) (evs : List Event)
    (h : pipelineLoop env p.has_vocals (pyOr p.synthesis_engine "diffsinger")
        p.id PIPELINE_ORDER p = (pr, false, evs)) :
    run_full_pipeline env (some p) =
      (some { pr with status := ProjectStatus.completed, progress := 100 },
        Event.log "pipeline_completo_iniciado" p.id :: evs ++
          [Event.persist { pr with status := ProjectStatus.completed, progress := 100 },
           Event.publish ⟨p.id, "completed", 100, "Pipeline concluido!",
              "completed", none, 0⟩,
           Event.log "pipeline_completo_concluido" p.id]) := by
  simp [run_full_pipeline, h]

/-- A full-run trace holds an invocation of a stage exactly when the loop
trace does. -/
lemma run_full_invoke_mem (env : Env) (p : Project) (s : PipelineStep) :
    (Event.invoke s ∈ (run_full_pipeline env (some p)).2) ↔
      Event.invoke s ∈
        (pipelineLoop env p.has_vocals
          (pyOr p.synthesis_engine "diffsinger") p.id PIPELINE_ORDER p).2.2 := by
  cases hr : pipelineLoop env p.has_vocals
      (pyOr p.synthesis_engine "diffsinger") p.id PIPELINE_ORDER p with
  | mk pr y =>
    cases y with
    | mk b evs =>
      cases b
      · rw [run_full_eq_ok env p pr evs hr]
        simp
      · rw [run_full_eq_err env p pr evs hr]
        simp

/-- A full-run trace counts invocations of a stage exactly as the loop
trace does. -/
lemma run_full_countP (env : Env) (p : Project) (s : PipelineStep) :
    (run_full_pipeline env (some p)).2.countP (isInvokeOf s) =
      (pipelineLoop env p.has_vocals
        (pyOr p.synthesis_engine "diffsinger") p.id PIPELINE_ORDER
        p).2.2.countP (isInvokeOf s) := by
  cases hr : pipelineLoop env p.has_vocals
      (pyOr p.synthesis_engine "diffsinger") p.id PIPELINE_ORDER p with
  | mk pr y =>
    cases y with
    | mk b evs =>
      cases b
      · rw [run_full_eq_ok env p pr evs hr]
        simp [List.countP_cons, List.countP_append, isInvokeOf]
      · rw [run_full_eq_err env p pr evs hr]
        simp [List.countP_cons, isInvokeOf]

/-- Whatever the skip configuration, the last non-skipped stage of the
pipeline order is MIX. -/
lemma lastStep_pipeline (hv : Bool) (eng : String) (c : Option PipelineStep) :
    lastStep hv eng PIPELINE_ORDER c = some PipelineStep.mix := by
  have hmix : ¬ skipped hv eng PipelineStep.mix := by simp [skipped]
  simp [PIPELINE_ORDER, lastStep, skipped]

/-- Sample analysis result used by concrete runs. -/
def aRes : AnalysisResult := ⟨180, 44100, 120, "C"⟩

/-- Environment where every stage's external work succeeds. -/
def envOk : Env := ⟨fun _ => Except.ok (), aRes⟩

/-- Environment where only the SYNTHESIS stage raises. -/
def envSynthErr : Env :=
  ⟨fun s => if s = PipelineStep.synthesis then
      Except.error "engine unavailable" else Except.ok (), aRes⟩

/-- Environment where only the SEPARATION stage raises. -/
def envSepErr : Env :=
  ⟨fun s => if s = PipelineStep.separation then
      Except.error "demucs failed" else Except.ok (), aRes⟩

/-- Sample job: instrumental upload, no vocals, DiffSinger engine. -/
def pA : Project :=
  ⟨"a", "song", none, ProjectStatus.created, none, none, some "mp3",
   none, none, none, none, none, some "it", false, some "diffsinger",
   none, 0, none⟩

/-- Sample job with vocals. -/
def pB : Project := { pA with id := "b", has_vocals := true }

/-- C1: for every job record that exists and for which every non-skipped
stage handler returns without raising, run_full_pipeline terminates with
status COMPLETED, progress 100, current_step MIX (the last non-skipped
stage of the fixed order), that state committed, and the trace ending with
the final completed progress event. -/
theorem c1_full_success (env : Env) (p : Project)
    (hok : ∀ s ∈ PIPELINE_ORDER,
      ¬ skipped p.has_vocals (pyOr p.synthesis_engine "diffsinger") s →
      env.outcome s = Except.ok ()) :
    ∃ pf evs, run_full_pipeline env (some p) = (some pf, evs) ∧
      pf.status = ProjectStatus.completed ∧ pf.progress = 100 ∧
      pf.current_step = some PipelineStep.mix ∧
      ∃ pre, evs = pre ++
        [Event.persist pf,
         Event.publish ⟨p.id, "completed", 100, "Pipeline concluido!",
            "completed", none, 0⟩,
         Event.log "pipeline_completo_concluido" p.id] := by
  cases hr : pipelineLoop env p.has_vocals
      (pyOr p.synthesis_engine "diffsinger") p.id PIPELINE_ORDER p with
  | mk pr y =>
    cases y with
    | mk b evs0 =>
      have hlo := loop_ok env p.has_vocals
        (pyOr p.synthesis_engine "diffsinger") p.id PIPELINE_ORDER p hok
      rw [hr] at hlo
      have hb : b = false := hlo.1
      subst hb
      rw [run_full_eq_ok env p pr evs0 hr]
      refine ⟨_, _, rfl, rfl, rfl, ?_, ?_⟩
      · exact hlo.2.trans (lastStep_pipeline _ _ _)
      · exact ⟨Event.log "pipeline_completo_iniciado" p.id :: evs0, rfl⟩

theorem c1_full_success_witness :
    ∃ pf evs, run_full_pipeline envOk (some pA) = (some pf, evs) ∧
      pf.status = ProjectStatus.completed ∧ pf.progress = 100 ∧
      pf.current_step = some PipelineStep.mix := by
  obtain ⟨pf, evs, h1, h2, h3, h4, _⟩ :=
    c1_full_success envOk pA (fun s _ _ => rfl)
  exact ⟨pf, evs, h1, h2, h3, h4⟩

/-- C2: for every job and every stage S reached by the run, if S's handler
raises then the run ends with status ERROR, a non-empty error_message
embedding S's identifier, that state committed, an error progress event
published, and no stage after S in the order invoked. -/
theorem c2_stage_failure (env : Env) (p : Project) (S : PipelineStep)
    (msg : String) (l1 l2 : List PipelineStep)
    (horder : PIPELINE_ORDER = l1 ++ S :: l2)
    (hS : ¬ skipped p.has_vocals (pyOr p.synthesis_engine "diffsinger") S)
    (hE : env.outcome S = Except.error msg)
    (hbef : ∀ s ∈ l1,
      skipped p.has_vocals (pyOr p.synthesis_engine "diffsinger") s ∨
      env.outcome s = Except.ok ()) :
    ∃ pe evs, run_full_pipeline env (some p) = (some pe, evs) ∧
      pe.status = ProjectStatus.error ∧
      pe.error_message =
        some ("Erro no step " ++ stepValue S ++ ": " ++ msg) ∧
      ("Erro no step " ++ stepValue S ++ ": " ++ msg) ≠ "" ∧
      (∃ pre post, ("Erro no step " ++ stepValue S ++ ": " ++ msg) =
        pre ++ stepValue S ++ post) ∧
      Event.persist pe ∈ evs ∧
      (∃ ev : PubEvent, Event.publish ev ∈ evs ∧ ev.step = "error" ∧
        ev.status = "error") ∧
      ∀ s ∈ l2, Event.invoke s ∉ evs := by
  have hnd : (l1 ++ S :: l2).Nodup := by rw [← horder]; decide
  have hdisj : ∀ s ∈ l2, s ∉ l1 ∧ s ≠ S := by
    intro s hs
    constructor
    · intro hc
      exact (List.nodup_append.mp hnd).2.2 hc (List.mem_cons_of_mem _ hs)
    · intro hc
      exact (List.nodup_cons.mp (List.nodup_append.mp hnd).2.1).1 (hc ▸ hs)
  obtain ⟨pe, evs0, heq, hst, hem, hpers, hpub, hinv⟩ :=
    loop_err env p.has_vocals (pyOr p.synthesis_engine "diffsinger") p.id
      S msg hS hE l1 l2 p hbef hdisj
  have heq2 : pipelineLoop env p.has_vocals
      (pyOr p.synthesis_engine "diffsinger") p.id PIPELINE_ORDER p =
      (pe, true, evs0) := by rw [horder]; exact heq
  rw [run_full_eq_err env p pe evs0 heq2]
  refine ⟨pe, _, rfl, hst, hem, ?_, ?_, List.mem_cons_of_mem _ hpers,
    ⟨_, List.mem_cons_of_mem _ hpub, rfl, rfl⟩, ?_⟩
  · intro hc
    have hlen := congrArg String.length hc
    rw [String.length_append, String.length_append,
      String.length_append] at hlen
    have h13 : ("Erro no step ").length = 13 := rfl
    have h0 : ("").length = 0 := rfl
    omega
  · exact ⟨"Erro no step ", ": " ++ msg, by
      rw [String.append_assoc, String.append_assoc]⟩
  · intro s hs hmem
    rcases List.mem_cons.mp hmem with h' | h'
    · simp at h'
    · exact hinv s hs h'

theorem c2_stage_failure_witness :
    ∃ pe evs, run_full_pipeline envSynthErr (some pA) = (some pe, evs) ∧
      pe.status = ProjectStatus.error ∧
      pe.error_message = some "Erro no step synthesis: engine unavailable" ∧
      Event.invoke PipelineStep.refinement ∉ evs ∧
      Event.invoke PipelineStep.mix ∉ evs := by
  obtain ⟨pe, evs, h1, h2, h3, _, _, _, _, hinv⟩ :=
    c2_stage_failure envSynthErr pA PipelineStep.synthesis
      "engine unavailable"
      [PipelineStep.upload, PipelineStep.separation, PipelineStep.analysis,
       PipelineStep.melody]
      [PipelineStep.refinement, PipelineStep.mix]
      rfl (by decide) rfl
      (by
        intro s hs
        fin_cases hs
        · exact Or.inl (Or.inl rfl)
        · exact Or.inl (Or.inr (Or.inl ⟨rfl, rfl⟩))
        · exact Or.inr rfl
        · exact Or.inr rfl)
  exact ⟨pe, evs, h1, h2, h3.trans rfl,
    hinv PipelineStep.refinement (by decide),
    hinv PipelineStep.mix (by decide)⟩

/-- C3: run_full_pipeline never invokes the SEPARATION handler for a job
without vocals, and invokes it exactly once for a job with vocals. -/
theorem c3_separation_skip (env : Env) (p : Project) :
    (p.has_vocals = false →
      Event.invoke PipelineStep.separation ∉
        (run_full_pipeline env (some p)).2) ∧
    (p.has_vocals = true →
      ((run_full_pipeline env (some p)).2.countP
        (isInvokeOf PipelineStep.separation)) = 1) := by
  constructor
  · intro hv0 hmem
    rw [run_full_invoke_mem] at hmem
    exact loop_skip_not_invoked env p.has_vocals
      (pyOr p.synthesis_engine "diffsinger") p.id PipelineStep.separation
      (Or.inr (Or.inl ⟨rfl, hv0⟩)) PIPELINE_ORDER p hmem
  · intro hv1
    rw [run_full_countP,
      show PIPELINE_ORDER = [PipelineStep.upload] ++
        PipelineStep.separation ::
        [PipelineStep.analysis, PipelineStep.melody, PipelineStep.synthesis,
         PipelineStep.refinement, PipelineStep.mix] from rfl]
    exact loop_count_one env p.has_vocals
      (pyOr p.synthesis_engine "diffsinger") p.id PipelineStep.separation
      (by simp [skipped, hv1]) [PipelineStep.upload]
      [PipelineStep.analysis, PipelineStep.melody, PipelineStep.synthesis,
       PipelineStep.refinement, PipelineStep.mix] p
      (by
        intro s hs
        rw [List.mem_singleton] at hs
        subst hs
        exact Or.inl (Or.inl rfl))
      (by decide) (by decide)

theorem c3_separation_skip_witness :
    (Event.invoke PipelineStep.separation ∉
      (run_full_pipeline envOk (some pA)).2) ∧
    ((run_full_pipeline envOk (some pB)).2.countP
      (isInvokeOf PipelineStep.separation)) = 1 :=
  ⟨(c3_separation_skip envOk pA).1 rfl, (c3_separation_skip envOk pB).2 rfl⟩

/-- C4 (amended): for a job whose engine is the text-to-audio variant
"acestep", run_full_pipeline never invokes the MELODY handler; for every
other engine value (including unset, defaulting to "diffsinger"), the
MELODY handler is invoked exactly once provided every earlier non-skipped
stage handler returns without raising. -/
theorem c4_melody_skip (env : Env) (p : Project) :
    (pyOr p.synthesis_engine "diffsinger" = "acestep" →
      Event.invoke PipelineStep.melody ∉
        (run_full_pipeline env (some p)).2) ∧
    (pyOr p.synthesis_engine "diffsinger" ≠ "acestep" →
      (∀ s ∈ [PipelineStep.upload, PipelineStep.separation,
          PipelineStep.analysis],
        skipped p.has_vocals (pyOr p.synthesis_engine "diffsinger") s ∨
        env.outcome s = Except.ok ()) →
      ((run_full_pipeline env (some p)).2.countP
        (isInvokeOf PipelineStep.melody)) = 1) := by
  constructor
  · intro heng hmem
    rw [run_full_invoke_mem] at hmem
    exact loop_skip_not_invoked env p.has_vocals
      (pyOr p.synthesis_engine "diffsinger") p.id PipelineStep.melody
      (Or.inr (Or.inr ⟨heng, rfl⟩)) PIPELINE_ORDER p hmem
  · intro heng hbef
    rw [run_full_countP,
      show PIPELINE_ORDER =
        [PipelineStep.upload, PipelineStep.separation,
         PipelineStep.analysis] ++ PipelineStep.melody ::
        [PipelineStep.synthesis, PipelineStep.refinement, PipelineStep.mix]
        from rfl]
    exact loop_count_one env p.has_vocals
      (pyOr p.synthesis_engine "diffsinger") p.id PipelineStep.melody
      (by simp [skipped, heng])
      [PipelineStep.upload, PipelineStep.separation, PipelineStep.analysis]
      [PipelineStep.synthesis, PipelineStep.refinement, PipelineStep.mix]
      p hbef (by decide) (by decide)

theorem c4_melody_skip_witness :
    ((run_full_pipeline envOk (some pA)).2.countP
      (isInvokeOf PipelineStep.melody)) = 1 :=
  (c4_melody_skip envOk pA).2 (by decide) (fun s _ => Or.inr rfl)

theorem c4_melody_skip_counterexample :
    pyOr pB.synthesis_engine "diffsinger" ≠ "acestep" ∧
    Event.invoke PipelineStep.melody ∉
      (run_full_pipeline envSepErr (some pB)).2 := by
  constructor
  · decide
  · decide

/-- C5 (amended): a pipeline run mutates only status, current_step,
progress, error_message and, through the stage handlers, the analysis
metadata (duration_seconds, sample_rate, bpm, musical_key) and
audio_format; all remaining job fields (id, name, description,
instrumental_filename, lyrics, language, has_vocals, synthesis_engine,
voice_model) are unchanged by run_full_pipeline and by any run_step. -/
theorem c5_frame (env : Env) (p : Project) (s : PipelineStep) :
    frameC5 ((run_full_pipeline env (some p)).1.getD p) p ∧
    frameC5 (run_step env p s).1 p := by
  refine ⟨?_, run_step_frame env p s⟩
  cases hr : pipelineLoop env p.has_vocals
      (pyOr p.synthesis_engine "diffsinger") p.id PIPELINE_ORDER p with
  | mk pr y =>
    cases y with
    | mk b evs =>
      have hfr := loop_frame env p.has_vocals
        (pyOr p.synthesis_engine "diffsinger") p.id PIPELINE_ORDER p
      rw [hr] at hfr
      cases b
      · rw [run_full_eq_ok env p pr evs hr]
        exact frameC5_trans (by simp [frameC5]) hfr
      · rw [run_full_eq_err env p pr evs hr]
        exact hfr

theorem c5_frame_counterexample :
    ((run_full_pipeline envOk (some pA)).1.getD pA).bpm ≠ pA.bpm ∧
    ((run_full_pipeline envOk (some pA)).1.getD pA).bpm = some 120 ∧
    pA.bpm = none := by
  refine ⟨?_, ?_, rfl⟩
  · decide
  · decide

/-- C6: run_step first commits current_step = stage and progress = 0
before any handler invocation, and on handler success ends with
progress = 100 committed; this holds for a direct run_step of any stage,
MIX included, independent of any other stage's state. -/
theorem c6_run_step_contract (env : Env) (p : Project) (s : PipelineStep) :
    ∃ rest, (run_step env p s).2.2 =
      Event.log "step_iniciado" (stepValue s) ::
        Event.persist { p with current_step := some s, progress := 0 } ::
        rest ∧
      ((run_step env p s).2.1 = none →
        (run_step env p s).1.progress = 100 ∧
        (run_step env p s).1.current_step = some s ∧
        ∃ pre, (run_step env p s).2.2 =
          pre ++ [Event.persist (run_step env p s).1,
                  Event.log "step_concluido" (stepValue s)]) := by
  cases hh : stepHandlers s with
  | none =>
    rw [run_step_none env p s hh]
    exact ⟨_, rfl, fun _ => ⟨rfl, rfl,
      ⟨[Event.log "step_iniciado" (stepValue s),
        Event.persist { p with current_step := some s, progress := 0 }],
       rfl⟩⟩⟩
  | some hd =>
    cases hr : hd env { p with current_step := some s, progress := 0 } with
    | mk p2 oe =>
      cases oe with
      | some e =>
        rw [run_step_hdl_err env p s hd p2 e hh hr]
        exact ⟨[Event.invoke s], rfl, fun hc => absurd hc (by simp)⟩
      | none =>
        rw [run_step_hdl_ok env p s hd p2 hh hr]
        refine ⟨_, rfl, fun _ => ⟨rfl, ?_,
          ⟨[Event.log "step_iniciado" (stepValue s),
            Event.persist { p with current_step := some s, progress := 0 },
            Event.invoke s], rfl⟩⟩⟩
        have hf := handler_frame s hd hh env
          { p with current_step := some s, progress := 0 }
        rw [hr] at hf
        simpa using hf.2.1

theorem c6_run_step_contract_witness :
    (run_step envOk pA PipelineStep.mix).2.1 = none ∧
    (run_step envOk pA PipelineStep.mix).1.progress = 100 ∧
    (run_step envOk pA PipelineStep.mix).1.current_step =
      some PipelineStep.mix := by
  obtain ⟨rest, hsh, himp⟩ := c6_run_step_contract envOk pA PipelineStep.mix
  have hnone : (run_step envOk pA PipelineStep.mix).2.1 = none := by decide
  obtain ⟨h1, h2, _⟩ := himp hnone
  exact ⟨hnone, h1, h2⟩

/-- C7 (amended): for a callback invocation with 0 < percent < 100 and
positive elapsed time, the published event carries
eta_seconds = round(elapsed / percent * (100 - percent)); the callback
updates the in-memory job progress to percent and commits nothing.  When
elapsed <= 0 the event carries no eta (see the counterexample). -/
theorem c7_progress_callback (pid stepName : String) (start_time now : ℚ)
    (p : Project) (percent : ℤ) (message : String)
    (h1 : 0 < percent) (h2 : percent < 100) (h3 : start_time < now) :
    (report_progress pid stepName start_time now p percent message).1 =
      { p with progress := percent } ∧
    (report_progress pid stepName start_time now p percent message).2 =
      [Event.publish ⟨pid, stepName, percent, message, "processing",
        some (pyRound ((now - start_time) / (percent : ℚ) *
          (100 - (percent : ℚ)))),
        pyRound (now - start_time)⟩] ∧
    ∀ q, Event.persist q ∉
      (report_progress pid stepName start_time now p percent message).2 := by
  have hcond : 0 < percent ∧ percent < 100 ∧ 0 < now - start_time :=
    ⟨h1, h2, sub_pos.mpr h3⟩
  unfold report_progress
  rw [if_pos hcond]
  exact ⟨rfl, rfl, fun q h => by simp at h⟩

theorem c7_progress_callback_witness :
    ∃ ev : PubEvent, (report_progress "a" "mix" 0 10 pA 50 "msg").2 =
      [Event.publish ev] ∧ ev.eta_seconds = some 10 ∧
      (report_progress "a" "mix" 0 10 pA 50 "msg").1.progress = 50 := by
  have h := c7_progress_callback "a" "mix" 0 10 pA 50 "msg"
    (by decide) (by decide) (by decide)
  refine ⟨_, h.2.1, ?_, ?_⟩
  · norm_num [pyRound, Rat.floor_def']
  · rw [h.1]

theorem c7_progress_callback_counterexample :
    (0 : ℤ) < 50 ∧ (50 : ℤ) < 100 ∧
    ∃ ev : PubEvent,
      (report_progress "a" "mix" 5 5 pA 50 "msg").2 = [Event.publish ev] ∧
      ev.eta_seconds = none ∧
      ev.eta_seconds ≠
        some (pyRound (((5 : ℚ) - 5) / (50 : ℚ) * (100 - (50 : ℚ)))) := by
  refine ⟨by decide, by decide, ⟨_, rfl, ?_, ?_⟩⟩
  · norm_num
  · intro hc
    norm_num at hc
    exact Option.noConfusion hc

/-- C10: run_step on the UPLOAD stage, which has no dispatch-table entry,
raises nothing, invokes no handler, still sets current_step, commits
progress 0 and then progress 100, and logs the step as completed. -/
theorem c10_upload_noop (env : Env) (p : Project) :
    run_step env p PipelineStep.upload =
      ({ p with current_step := some PipelineStep.upload, progress := 100 },
        none,
        [Event.log "step_iniciado" "upload",
         Event.persist { p with current_step := some PipelineStep.upload, progress := 0 },
         Event.persist { p with current_step := some PipelineStep.upload, progress := 100 },
         Event.log "step_concluido" "upload"]) ∧
    ∀ s, Event.invoke s ∉ (run_step env p PipelineStep.upload).2.2 := by
  have h := run_step_none env p PipelineStep.upload rfl
  refine ⟨h, ?_⟩
  intro s hmem
  rw [h] at hmem
  simp at hmem

theorem c10_upload_noop_witness :
    (run_step envOk pA PipelineStep.upload).2.1 = none ∧
    (run_step envOk pA PipelineStep.upload).1.progress = 100 := by
  have h := (c10_upload_noop envOk pA).1
  rw [h]
  exact ⟨rfl, rfl⟩

/-- C8: publish_progress never raises to its caller: whichever transport
step fails (client creation or the publish itself), the failure is caught,
logged as redis_publish_erro and swallowed; only when both succeed is the
payload published on the job's channel. -/
theorem c8_publish_swallows (t : RedisTransport) (pid step : String)
    (progress : ℤ) (message status : String) (eta_seconds : Option ℤ)
    (elapsed_seconds : ℤ) (now : ℚ) :
    (∃ e, t.fromUrl = Except.error e ∧
      publish_progress t pid step progress message status eta_seconds
        elapsed_seconds now = [WsEffect.logWarning "redis_publish_erro" e]) ∨
    (∃ e, t.fromUrl = Except.ok () ∧ t.publishRes = Except.error e ∧
      publish_progress t pid step progress message status eta_seconds
        elapsed_seconds now = [WsEffect.logWarning "redis_publish_erro" e]) ∨
    (t.fromUrl = Except.ok () ∧ t.publishRes = Except.ok () ∧
      publish_progress t pid step progress message status eta_seconds
        elapsed_seconds now =
        [WsEffect.published ("pipeline:progress:" ++ pid)
          ⟨"progress", pid, step, progress, message, status,
           elapsed_seconds, eta_seconds, now⟩]) := by
  rcases hf : t.fromUrl with e | u
  · exact Or.inl ⟨e, rfl,
      by simp [publish_progress, publish_progress_body, hf]⟩
  · cases u
    rcases hp : t.publishRes with e | u2
    · exact Or.inr (Or.inl ⟨e, rfl, rfl,
        by simp [publish_progress, publish_progress_body, hf, hp]⟩)
    · cases u2
      exact Or.inr (Or.inr ⟨rfl, rfl,
        by simp [publish_progress, publish_progress_body, hf, hp]⟩)

lemma regGet_of_not_has (m : Registry) (k : String)
    (h : regHas m k = false) : regGet m k = [] := by
  induction m with
  | nil => rfl
  | cons kv rest ih =>
    cases kv with
    | mk k2 v =>
      unfold regHas at h
      unfold regGet
      by_cases hk : k2 = k
      · rw [if_pos hk] at h
        exact absurd h (by simp)
      · rw [if_neg hk] at h
        rw [if_neg hk]
        exact ih h

lemma regGet_regDel (m : Registry) (k : String) :
    regGet (regDel m k) k = [] := by
  induction m with
  | nil => rfl
  | cons kv rest ih =>
    cases kv with
    | mk k2 v =>
      by_cases hk : k2 = k
      · simp [regDel, hk, ih]
      · simp [regDel, regGet, hk, ih]

lemma regGet_regSet (m : Registry) (k : String) (v : List ℕ)
    (h : regHas m k = true) : regGet (regSet m k v) k = v := by
  induction m with
  | nil => simp [regHas] at h
  | cons kv rest ih =>
    cases kv with
    | mk k2 w =>
      by_cases hk : k2 = k
      · simp [regSet, regGet, hk]
      · unfold regHas at h
        rw [if_neg hk] at h
        simp [regSet, regGet, hk, ih h]

/-- After a disconnect, the project's connection list is the old list with
every copy of the disconnected connection removed. -/
lemma regGet_disconnect (m : Registry) (w : ℕ) (k : String) :
    regGet (disconnect m w k) k =
      (regGet m k).filter (fun x => x ≠ w) := by
  unfold disconnect
  by_cases hh : regHas m k = true
  · rw [if_pos hh]
    by_cases hl : (regGet m k).filter (fun x => x ≠ w) = []
    · rw [if_pos hl, regGet_regDel, hl]
    · rw [if_neg hl, regGet_regSet m k _ hh]
  · have hf : regHas m k = false := by simpa using hh
    rw [if_neg hh, regGet_of_not_has m k hf]
    simp

lemma notMem_regGet_disconnect_self (m : Registry) (w : ℕ) (k : String) :
    w ∉ regGet (disconnect m w k) k := by
  rw [regGet_disconnect]
  simp [List.mem_filter]

lemma notMem_regGet_disconnect_mono (m : Registry) (w w2 : ℕ) (k : String)
    (h : w ∉ regGet m k) : w ∉ regGet (disconnect m w2 k) k := by
  rw [regGet_disconnect]
  intro hc
  exact h (List.mem_of_mem_filter hc)

lemma notMem_foldl_disconnect (k : String) (w : ℕ) :
    ∀ (dead : List ℕ) (m : Registry), w ∉ regGet m k →
      w ∉ regGet (dead.foldl (fun acc x => disconnect acc x k) m) k := by
  intro dead
  induction dead with
  | nil => intro m h; exact h
  | cons d rest ih =>
    intro m h
    exact ih (disconnect m d k) (notMem_regGet_disconnect_mono m w d k h)

lemma mem_dead_foldl_disconnect (k : String) (w : ℕ) :
    ∀ (dead : List ℕ) (m : Registry), w ∈ dead →
      w ∉ regGet (dead.foldl (fun acc x => disconnect acc x k) m) k := by
  intro dead
  induction dead with
  | nil => intro m h; exact absurd h (List.not_mem_nil w)
  | cons d rest ih =>
    intro m hmem
    rcases List.mem_cons.mp hmem with rfl | h'
    · exact notMem_foldl_disconnect k w rest (disconnect m w k)
        (notMem_regGet_disconnect_self m w k)
    · exact ih (disconnect m d k) h'

/-- C9: send_to_project attempts the payload on every currently-registered
connection of the job: every connection whose send succeeds receives the
payload even when other connections fail, and every connection whose send
raises is removed from the registry. -/
theorem c9_send_to_project (sendOk : ℕ → Bool) (m : Registry)
    (pid data : String) (w : ℕ) (hmem : w ∈ regGet m pid) :
    (sendOk w = true →
      (w, data) ∈ (send_to_project sendOk m pid data).2) ∧
    (sendOk w = false →
      w ∉ regGet (send_to_project sendOk m pid data).1 pid) := by
  constructor
  · intro hok
    exact List.mem_map.mpr ⟨w, List.mem_filter.mpr ⟨hmem, hok⟩, rfl⟩
  · intro hbad
    exact mem_dead_foldl_disconnect pid w _ m
      (List.mem_filter.mpr ⟨hmem, by simp [hbad]⟩)

theorem c9_send_to_project_witness :
    ((1, "x") ∈ (send_to_project (fun n => decide (n ≠ 2))
      [("j", [1, 2, 3])] "j" "x").2) ∧
    (2 ∉ regGet (send_to_project (fun n => decide (n ≠ 2))
      [("j", [1, 2, 3])] "j" "x").1 "j") :=
  ⟨(c9_send_to_project (fun n => decide (n ≠ 2)) [("j", [1, 2, 3])] "j" "x"
      1 (by decide)).1 (by decide),
   (c9_send_to_project (fun n => decide (n ≠ 2)) [("j", [1, 2, 3])] "j" "x"
      2 (by decide)).2 (by decide)⟩
